import Mathlib

/-!
Verification of the SQL safety validation and query-shaping pipeline of the
Sql-Ai-Engine repository.  SQL text is modelled as `List Char`; the JavaScript
regular expressions of the source are embedded as executable scanners over
character lists.  The embedding covers the sanitizer (`cleanSQL`), the
validator (`validateSQL`), the row-limit injection of `executeSQL`, the
timeout race of `executeWithTimeout`, the LRU schema cache configuration,
the query-history store, and the control flow of `queryFromQuestion`.
-/

namespace SqlAi

/-- Character list abbreviation, the shallow embedding of a JS string. -/
abbrev Str := List Char

/-- JS regex word character class, i.e. the characters matched by `\w`
(`[A-Za-z0-9_]`); `\b` boundaries are defined from it. -/
def wordChar (c : Char) : Bool :=
  (48 ≤ c.toNat && c.toNat ≤ 57) || (65 ≤ c.toNat && c.toNat ≤ 90) ||
  (97 ≤ c.toNat && c.toNat ≤ 122) || c.toNat == 95

/-- JS whitespace (`\s`, and the characters removed by `String.trim`),
modelled on the ASCII whitespace characters plus NBSP; the remaining Unicode
space characters do not occur in the inputs considered here. -/
def isJsSpace (c : Char) : Bool :=
  c.toNat == 32 || c.toNat == 9 || c.toNat == 10 || c.toNat == 11 ||
  c.toNat == 12 || c.toNat == 13 || c.toNat == 160

/-- Line terminators, the characters that the JS regex `.` does not match. -/
def isLineTerm (c : Char) : Bool :=
  c.toNat == 10 || c.toNat == 13 || c.toNat == 8232 || c.toNat == 8233

/-- The quote characters stripped by `cleanSQL` (double quote, single quote,
backtick, i.e. the regex class matching those three characters). -/
def isQuoteChar (c : Char) : Bool :=
  c.toNat == 34 || c.toNat == 39 || c.toNat == 96

/-- ASCII uppercase letter test, used to define case-insensitive matching. -/
def isAsciiUpper (c : Char) : Bool := 65 ≤ c.toNat && c.toNat ≤ 90

/-- Case-insensitive character equality: the equivalence used by the `/i`
regex flag on ASCII letters. -/
def ciEqChar (a b : Char) : Bool :=
  a == b || (isAsciiUpper a && (b.toNat == a.toNat + 32)) ||
  (isAsciiUpper b && (a.toNat == b.toNat + 32))

/-- ASCII upper-casing of one character (JS `toUpperCase` restricted to
ASCII, which is all that the validator's keyword test needs). -/
def upperC (c : Char) : Char :=
  if 97 ≤ c.toNat && c.toNat ≤ 122 then Char.ofNat (c.toNat - 32) else c

/-- Drop a run of characters satisfying `p` from the end of a list. -/
def dropEndWhile (p : Char → Bool) (l : Str) : Str :=
  (l.reverse.dropWhile p).reverse

/-- JS `String.prototype.trim`: drop whitespace from both ends. -/
def jsTrim (l : Str) : Str := (dropEndWhile isJsSpace l).dropWhile isJsSpace

/-- Case-insensitively strip the pattern word `w` from the front of the text;
`some r` is the rest of the text after the match, `none` means no match. -/
def stripCI : Str → Str → Option Str
  | [], s => some s
  | _ :: _, [] => none
  | a :: as, b :: bs => if ciEqChar a b then stripCI as bs else none

/-- Continue a match with `k` after case-insensitively consuming the word
`w`; false when `w` is not a case-insensitive prefix of the text. -/
def afterCI (w : Str) (k : Str → Bool) (s : Str) : Bool :=
  match stripCI w s with
  | some r => k r
  | none => false

/-- Case-insensitive prefix test. -/
def isPrefixCI (w : Str) (s : Str) : Bool := afterCI w (fun _ => true) s

/-- Regex `\s+` followed by a continuation: at least one whitespace
character, then `k` holds at some position reachable by consuming more
whitespace (exactly the backtracking semantics of `\s+`). -/
def wsThen (k : Str → Bool) : Str → Bool
  | [] => false
  | c :: cs => isJsSpace c && (k cs || wsThen k cs)

/-- Regex `\s*` followed by a continuation. -/
def wsStar (k : Str → Bool) : Str → Bool
  | [] => k []
  | c :: cs => k (c :: cs) || (isJsSpace c && wsStar k cs)

/-- Scan for a match of `m` at a position preceded by a `\b` word boundary;
`prev` records whether the previous character was a word character. -/
def scanBoundary (m : Str → Bool) : Bool → Str → Bool
  | _, [] => false
  | prev, c :: cs => ((!prev) && m (c :: cs)) || scanBoundary m (wordChar c) cs

/-- Scan for a match of `m` at any position. -/
def scanAny (m : Str → Bool) : Str → Bool
  | [] => false
  | c :: cs => m (c :: cs) || scanAny m cs

/-- No word character at the head of the rest of the text: the closing `\b`
of a whole-word pattern. -/
def noWordStart (b : Str) : Bool :=
  match b with
  | [] => true
  | c :: _ => !wordChar c

/-- No word character at the end of a list: the text before an opening `\b`. -/
def noWordEnd (a : Str) : Bool :=
  match a.getLast? with
  | none => true
  | some c => !wordChar c

/-- Match of `\bW\b` starting at the current position (the opening boundary
is checked by `scanBoundary`). -/
def wordHere (w : Str) : Str → Bool := afterCI w noWordStart

/-- Test of the regex `\bW\b` with the `i` flag anywhere in the text. -/
def containsWordCI (w : Str) (s : Str) : Bool := scanBoundary (wordHere w) false s

/-- Match of `INTO\s+W\b` starting at the current position, for the
`INTO OUTFILE` / `INTO DUMPFILE` patterns. -/
def intoHere (w2 : Str) : Str → Bool := afterCI ("INTO".toList) (wsThen (wordHere w2))

/-- Test of `\bINTO\s+W\b` with the `i` flag anywhere in the text. -/
def containsIntoPhrase (w2 : Str) (s : Str) : Bool := scanBoundary (intoHere w2) false s

/-- Match of the comment-injection pattern `;\s*--` at the current position. -/
def semiCommentHere : Str → Bool
  | [] => false
  | c :: cs => c == ';' && wsStar (fun r => "--".toList.isPrefixOf r) cs

/-- Test of the regex `;\s*--` anywhere in the text. -/
def hasSemiComment (s : Str) : Bool := scanAny semiCommentHere s

/-- Match of `FROM\s+INFORMATION_SCHEMA` at the current position. -/
def fromInfoHere : Str → Bool :=
  afterCI ("FROM".toList) (wsThen (isPrefixCI ("INFORMATION_SCHEMA".toList)))

/-- Search for a match of `m` reachable without crossing a line terminator:
the semantics of `.*M` in a regex without the `s` flag. -/
def sameLineSearch (m : Str → Bool) : Str → Bool
  | [] => m []
  | c :: cs => m (c :: cs) || ((!isLineTerm c) && sameLineSearch m cs)

/-- Match of `UNION\s+ALL\s+SELECT.*FROM\s+INFORMATION_SCHEMA` starting at
the current position. -/
def unionHere : Str → Bool :=
  afterCI ("UNION".toList)
    (wsThen (afterCI ("ALL".toList)
      (wsThen (afterCI ("SELECT".toList) (sameLineSearch fromInfoHere)))))

/-- Test of the schema-enumeration pattern anywhere in the text. -/
def hasUnionInfoSchema (s : Str) : Bool := scanAny unionHere s

/-- First group of blocked keywords of `DANGEROUS_PATTERNS`. -/
def dangerousGroup1 : List Str :=
  ["INSERT".toList, "UPDATE".toList, "DELETE".toList, "DROP".toList,
   "TRUNCATE".toList, "ALTER".toList, "CREATE".toList, "GRANT".toList,
   "REVOKE".toList]

/-- Second group of blocked keywords of `DANGEROUS_PATTERNS`. -/
def dangerousGroup2 : List Str := ["EXEC".toList, "EXECUTE".toList, "EVAL".toList]

/-- All blocked single-word patterns, in the order of the source. -/
def dangerousWords : List Str :=
  dangerousGroup1 ++ dangerousGroup2 ++ ["LOAD_FILE".toList]

/-- Disjunction of the seven `DANGEROUS_PATTERNS` tests of the source; the
validator throws one fixed message when any of them fires, so the loop over
the pattern array is equivalent to this disjunction. -/
def dangerousTest (sql : Str) : Bool :=
  dangerousGroup1.any (fun w => containsWordCI w sql) ||
  dangerousGroup2.any (fun w => containsWordCI w sql) ||
  containsIntoPhrase ("OUTFILE".toList) sql ||
  containsIntoPhrase ("DUMPFILE".toList) sql ||
  containsWordCI ("LOAD_FILE".toList) sql ||
  hasSemiComment sql ||
  hasUnionInfoSchema sql

/-- JS `sql.split(';')`. -/
def splitSemi : Str → List Str
  | [] => [[]]
  | c :: cs =>
    if c == ';' then [] :: splitSemi cs
    else
      match splitSemi cs with
      | [] => [[c]]
      | seg :: rest => (c :: seg) :: rest

/-- Number of segments of `sql.split(';')` whose trimmed form is non-empty,
i.e. segments containing a non-whitespace character. -/
def countStatements (sql : Str) : Nat :=
  ((splitSemi sql).filter (fun seg => seg.any (fun c => !isJsSpace c))).length

/-- The leading-keyword test of `validateSQL`: upper-case the trimmed query
and check for the `SELECT` or `WITH` prefix. -/
def startsSelectOrWith (sql : Str) : Bool :=
  let t := (jsTrim sql).map upperC
  ("SELECT".toList.isPrefixOf t) || ("WITH".toList.isPrefixOf t)

/-- The `validateSQL` function of the SQL service: empty check, leading
keyword check, dangerous-pattern scan, multiple-statement check, in the
order of the source; each failing check throws the corresponding message. -/
def validateSQL (sql : Str) : Except String Unit :=
  if (jsTrim sql).length = 0 then Except.error "Empty SQL query"
  else if startsSelectOrWith sql = false then
    Except.error "Only SELECT queries are allowed"
  else if dangerousTest sql = true then
    Except.error "Query contains potentially dangerous operations"
  else if 1 < countStatements sql then
    Except.error "Multiple SQL statements are not allowed"
  else Except.ok ()

/-- Whether an `Except` result is a success. -/
def isOkE {ε α : Type} : Except ε α → Bool
  | Except.ok _ => true
  | Except.error _ => false

/-- Whether `validateSQL` accepts the query. -/
def accepts (sql : Str) : Bool := isOkE (validateSQL sql)

/-- Strip `/^```sql\s*/i` from the front of the text. -/
def stripLeadFenceSql (s : Str) : Str :=
  match stripCI ("```sql".toList) s with
  | some r => r.dropWhile isJsSpace
  | none => s

/-- Strip `/^```\s*/i` from the front of the text. -/
def stripLeadFence (s : Str) : Str :=
  match stripCI ("```".toList) s with
  | some r => r.dropWhile isJsSpace
  | none => s

/-- Strip `/\s*```$/i` from the end of the text: when the text ends with a
fence, remove it together with the whitespace run before it. -/
def stripTrailFence (s : Str) : Str :=
  if ("```".toList).isSuffixOf s then
    dropEndWhile isJsSpace (s.take (s.length - 3))
  else s

/-- Strip `/^["'`]+|["'`]+$/g`: the maximal leading run and the maximal
trailing run of quote characters. -/
def stripQuotes (s : Str) : Str :=
  dropEndWhile isQuoteChar (s.dropWhile isQuoteChar)

/-- Append a statement terminator unless one is already present. -/
def ensureSemi (s : Str) : Str :=
  if s.getLast? = some ';' then s else s ++ [';']

/-- The `cleanSQL` function of the SQL service: trim, strip markdown code
fences, strip surrounding quotes, ensure a trailing semicolon — in the order
of the source.  There is no stage that discards text before the first
`SELECT`/`WITH` keyword. -/
def cleanSQL (sql : Str) : Str :=
  ensureSemi (stripQuotes (stripTrailFence (stripLeadFence (stripLeadFenceSql (jsTrim sql)))))

/-- Match of `LIMIT\s+\d+` at the current position (the opening `\b` is
checked by `scanBoundary`); `\d+` matches somewhere exactly when a digit
follows the whitespace run. -/
def limitHere : Str → Bool :=
  afterCI ("LIMIT".toList)
    (wsThen (fun r => match r with | c :: _ => c.isDigit | [] => false))

/-- Test of the regex `\bLIMIT\s+\d+` with the `i` flag: whether the
statement already declares a row limit. -/
def hasLimitClause (sql : Str) : Bool := scanBoundary limitHere false sql

/-- Decimal rendering of a natural number with explicit fuel, so that the
definition is structurally recursive and kernel-reducible. -/
def natDigitsAux : Nat → Nat → Str
  | 0, _ => []
  | fuel + 1, n =>
    if n < 10 then [Char.ofNat (48 + n)]
    else natDigitsAux fuel (n / 10) ++ [Char.ofNat (48 + n % 10)]

/-- Decimal rendering of the row bound, as the template literal of the
source renders `maxRows`. -/
def natDigits (n : Nat) : Str := natDigitsAux (n + 1) n

/-- The replacement `sql.replace` of the trailing `;?\s*$` by the limit
clause: the first regex match removes the trailing whitespace run and the
terminator directly before it (when present), and the limit clause text is
put in its place. -/
def replaceEndWithLimit (sql : Str) (maxRows : Nat) : Str :=
  let r := dropEndWhile isJsSpace sql
  let r2 := if r.getLast? = some ';' then r.dropLast else r
  r2 ++ (" LIMIT ".toList ++ natDigits maxRows ++ ";".toList)

/-- The row-limit injection step of `executeSQL`: leave the statement alone
when it already has a `LIMIT` clause, otherwise append one; the second
component is the `limitApplied` flag, computed as in the source by comparing
the shaped statement with the original. -/
def applyLimitSQL (sql : Str) (maxRows : Nat) : Str × Bool :=
  let limited := if hasLimitClause sql then sql else replaceEndWithLimit sql maxRows
  (limited, limited != sql)

/-- One database call, abstracted for the timeout race: how long the
backend would take, and what it would produce.  Time is in milliseconds on
an abstract clock. -/
structure DbCall (ρ : Type) where
  latency : Nat
  outcome : Except String (List ρ)

/-- The message of the rejection raised by the timer branch of
`executeWithTimeout`. -/
def timeoutMessage (t : Nat) : String :=
  "Query timed out after " ++ String.mk (natDigits t) ++ "ms"

/-- The `executeWithTimeout` race of the connection module: the database
promise against a timer of `t` milliseconds; whichever settles strictly
first wins (the source does not determine a tie, and no claim depends on
one).  When the timer wins, the caller gets the timeout rejection and no
rows of the eventual database outcome. -/
def executeWithTimeout {ρ : Type} (call : DbCall ρ) (t : Nat) : Except String (List ρ) :=
  if t < call.latency then Except.error (timeoutMessage t) else call.outcome

/-- Result shape of `executeSQL` (the timing field is omitted: it reads the
wall clock and no claim depends on it). -/
structure ExecResult (ρ : Type) where
  results : List ρ
  rowCount : Nat
  limitApplied : Bool

/-- The `executeSQL` function of the SQL service: validate, inject the row
limit, execute under the timeout, and shape the result.  The database is a
function from the statement text to the call it would perform. -/
def executeSQL {ρ : Type} (db : Str → DbCall ρ) (sql : Str) (t maxRows : Nat) :
    Except String (ExecResult ρ) :=
  match validateSQL sql with
  | Except.error e => Except.error e
  | Except.ok _ =>
    match executeWithTimeout (db (applyLimitSQL sql maxRows).1) t with
    | Except.error e => Except.error e
    | Except.ok rows => Except.ok ⟨rows, rows.length, (applyLimitSQL sql maxRows).2⟩

/-- Model of the `lru-cache` dependency (not part of this repository) as
configured by the schema-cache module: entries ordered most-recent-first,
each carrying the time its age was last reset; an entry is stale when the
time since that reset strictly exceeds the TTL; `updateAgeOnGet` resets an
entry's age on every cache hit, per the library's documented semantics (the
source enables it together with `updateAgeOnHas`). -/
structure LruCache (α : Type) where
  entries : List (String × α × Nat)
  ttl : Nat
  maxEntries : Nat
  updateAgeOnGet : Bool

/-- The schema cache as initialised by the source with default
configuration: capacity 50, TTL 300000 ms, age renewed on reads. -/
def initialSchemaCache (α : Type) : LruCache α :=
  ⟨[], 300000, 50, true⟩

/-- `cache.set(key, value)` at time `now`: insert at the most-recent
position with a fresh age, evicting the least recently used entry beyond
capacity. -/
def cacheSet {α : Type} (c : LruCache α) (k : String) (v : α) (now : Nat) : LruCache α :=
  let rest := c.entries.filter (fun e => e.1 != k)
  { c with entries := ((k, v, now) :: rest).take c.maxEntries }

/-- `cache.get(key)` at time `now`: a stale entry behaves as absent and is
dropped; a live entry is moved to the most-recent position, and with
`updateAgeOnGet` its age is reset to `now`. -/
def cacheGet {α : Type} (c : LruCache α) (k : String) (now : Nat) :
    Option α × LruCache α :=
  match c.entries.find? (fun e => e.1 == k) with
  | none => (none, c)
  | some (_, v, start) =>
    if c.ttl ≠ 0 ∧ c.ttl < now - start then
      (none, { c with entries := c.entries.filter (fun e => e.1 != k) })
    else
      let start2 := if c.updateAgeOnGet then now else start
      (some v, { c with entries := (k, v, start2) :: c.entries.filter (fun e => e.1 != k) })

/-- One record of the in-memory query-history store.  The payload stands for
the caller-supplied entry fields (question, sql, timings, timestamp); the
`id` is the field the store itself assigns. -/
structure HistoryEntry (α : Type) where
  id : Nat
  payload : α
deriving DecidableEq

/-- Maximum retention count of the history store. -/
def MAX_HISTORY_SIZE : Nat := 1000

/-- The `addToHistory` function of the history store: `unshift` a record
whose id is the store's size before insertion plus one, then `pop` the
oldest record when the size exceeds the retention maximum. -/
def addToHistory {α : Type} (e : α) (history : List (HistoryEntry α)) :
    List (HistoryEntry α) :=
  let h2 := ⟨history.length + 1, e⟩ :: history
  if MAX_HISTORY_SIZE < h2.length then h2.dropLast else h2

/-- The `getHistoryById` function: first record (most recent, since
`unshift` puts new records in front) whose id matches. -/
def getHistoryById {α : Type} (i : Nat) (history : List (HistoryEntry α)) :
    Option (HistoryEntry α) :=
  history.find? (fun h => h.id == i)

/-- Outcome of the generation stage seen by `queryFromQuestion` (schema
introspection, prompt building and the AI call are behind it; only the
generated statement feeds the later stages). -/
structure GenOut where
  sql : Str
deriving DecidableEq

/-- The fields of a history record that differ between the recorder calls
made by `queryFromQuestion`. -/
structure HistEntry where
  success : Bool
  sql : Option Str
  errMsg : Option String
deriving DecidableEq

/-- The history record of a successful attempt. -/
def histSuccess (g : GenOut) : HistEntry := ⟨true, some g.sql, none⟩

/-- The history record of a failed attempt, carrying the error message. -/
def histFailure (e : String) : HistEntry := ⟨false, none, some e⟩

/-- Response shape of `queryFromQuestion` (timing and metadata fields that
no claim depends on are omitted). -/
structure QueryResponse (γ : Type) where
  sql : Str
  results : List γ
  rowCount : Nat
  explanation : Option String
deriving DecidableEq

/-- Control flow of `queryFromQuestion`: generate, execute, optionally
explain (an explanation failure is caught and logged, yielding no
explanation), then record the attempt in history and return.  The recorder
call is not guarded: the whole body sits in one `try`, whose `catch` records
a failure entry and rethrows, so a throwing recorder on the success path
lands in the `catch` as well. -/
def queryFromQuestion {γ : Type} (gen : Except String GenOut)
    (execF : Str → Except String (List γ)) (explainOpt : Bool)
    (explainF : Str → List γ → Except String String)
    (recorder : HistEntry → Except String Unit) : Except String (QueryResponse γ) :=
  match gen with
  | Except.error e =>
    match recorder (histFailure e) with
    | Except.ok _ => Except.error e
    | Except.error e2 => Except.error e2
  | Except.ok g =>
    match execF g.sql with
    | Except.error e =>
      match recorder (histFailure e) with
      | Except.ok _ => Except.error e
      | Except.error e2 => Except.error e2
    | Except.ok rows =>
      let explanation :=
        if explainOpt = true ∧ 0 < rows.length then
          match explainF g.sql rows with
          | Except.ok ex => some ex
          | Except.error _ => none
        else none
      match recorder (histSuccess g) with
      | Except.ok _ => Except.ok ⟨g.sql, rows, rows.length, explanation⟩
      | Except.error eh =>
        match recorder (histFailure eh) with
        | Except.ok _ => Except.error eh
        | Except.error e2 => Except.error e2

/-- Case-insensitive equality of two character lists, first the pattern,
then the text chunk. -/
def ciListEq : Str → Str → Bool
  | [], [] => true
  | a :: as, b :: bs => ciEqChar a b && ciListEq as bs
  | _, _ => false

/-- The text `s` contains a whole-word case-insensitive occurrence of the
word `w`: an occurrence bounded by word boundaries on both sides, which is
what `\bW\b` with the `i` flag matches. -/
def HasWordOcc (w s : Str) : Prop :=
  ∃ a u b, s = a ++ u ++ b ∧ ciListEq w u = true ∧
    noWordEnd a = true ∧ noWordStart b = true

/-- The text `s` contains a whole-word case-insensitive occurrence of the
phrase `INTO W`, the two words separated by whitespace. -/
def HasIntoPhraseOcc (w2 s : Str) : Prop :=
  ∃ a u1 m u2 b, s = a ++ u1 ++ m ++ u2 ++ b ∧
    ciListEq ("INTO".toList) u1 = true ∧ m ≠ [] ∧ m.all isJsSpace = true ∧
    ciListEq w2 u2 = true ∧ noWordEnd a = true ∧ noWordStart b = true

/-- Whether the first character, when present, is not one of the quote
characters stripped by `cleanSQL` (a backtick head would also start a code
fence). -/
def headNotQuote (s : Str) : Bool :=
  match s.head? with
  | none => true
  | some c => !isQuoteChar c

lemma stripCI_append : ∀ (w u b : Str), ciListEq w u = true → stripCI w (u ++ b) = some b := by
  intro w
  induction w with
  | nil =>
    intro u b h
    cases u with
    | nil => rfl
    | cons x xs => simp [ciListEq] at h
  | cons a as ih =>
    intro u b h
    cases u with
    | nil => simp [ciListEq] at h
    | cons x xs =>
      rw [ciListEq, Bool.and_eq_true] at h
      simpa [stripCI, h.1] using ih xs b h.2

lemma ciListEq_ne_nil {w u : Str} (h : ciListEq w u = true) (hw : w ≠ []) : u ≠ [] := by
  cases w with
  | nil => exact absurd rfl hw
  | cons a as =>
    cases u with
    | nil => simp [ciListEq] at h
    | cons x xs => simp

lemma wsThen_append (k : Str → Bool) :
    ∀ (m rest : Str), m ≠ [] → m.all isJsSpace = true → k rest = true →
    wsThen k (m ++ rest) = true := by
  intro m
  induction m with
  | nil => intro rest h; exact absurd rfl h
  | cons c cs ih =>
    intro rest _ hall hk
    rw [List.all_cons, Bool.and_eq_true] at hall
    cases cs with
    | nil => simp [wsThen, hall.1, hk]
    | cons d ds =>
      have h2 := ih rest (by simp) hall.2 hk
      show wsThen k (c :: (d :: ds ++ rest)) = true
      rw [show wsThen k (c :: (d :: ds ++ rest)) =
            (isJsSpace c && (k (d :: ds ++ rest) || wsThen k (d :: ds ++ rest))) from rfl,
          hall.1, h2]
      simp

lemma scanBoundary_append (m : Str → Bool) (rest : Str)
    (hm : m rest = true) (hne : rest ≠ []) :
    ∀ (a : Str) (prev : Bool), noWordEnd a = true → (a = [] → prev = false) →
    scanBoundary m prev (a ++ rest) = true := by
  intro a
  induction a with
  | nil =>
    intro prev _ hp
    rw [hp rfl]
    cases rest with
    | nil => exact absurd rfl hne
    | cons c cs => simp [scanBoundary, hm]
  | cons x xs ih =>
    intro prev hend _
    have h2 : scanBoundary m (wordChar x) (xs ++ rest) = true := by
      apply ih
      · cases xs with
        | nil => simp [noWordEnd]
        | cons y ys => simpa [noWordEnd, List.getLast?_cons_cons] using hend
      · intro hxs
        subst hxs
        simpa [noWordEnd] using hend
    simp [scanBoundary, h2]

lemma containsWordCI_of_occ {w s : Str} (h : HasWordOcc w s) (hw : w ≠ []) :
    containsWordCI w s = true := by
  obtain ⟨a, u, b, hs, hci, hend, hstart⟩ := h
  subst hs
  have hu : u ≠ [] := ciListEq_ne_nil hci hw
  have hm : wordHere w (u ++ b) = true := by
    simp [wordHere, afterCI, stripCI_append w u b hci, hstart]
  have hrest : u ++ b ≠ [] := by cases u with | nil => exact absurd rfl hu | cons => simp
  have := scanBoundary_append (wordHere w) (u ++ b) hm hrest a false hend (fun _ => rfl)
  simpa [containsWordCI, List.append_assoc] using this

lemma containsIntoPhrase_of_occ {w2 s : Str} (h : HasIntoPhraseOcc w2 s) :
    containsIntoPhrase w2 s = true := by
  obtain ⟨a, u1, mw, u2, b, hs, hci1, hmne, hmall, hci2, hend, hstart⟩ := h
  subst hs
  have hu1 : u1 ≠ [] := ciListEq_ne_nil hci1 (by decide)
  have hk : wordHere w2 (u2 ++ b) = true := by
    simp [wordHere, afterCI, stripCI_append w2 u2 b hci2, hstart]
  have hws : wsThen (wordHere w2) (mw ++ (u2 ++ b)) = true :=
    wsThen_append (wordHere w2) mw (u2 ++ b) hmne hmall hk
  have hstrip : stripCI ("INTO".toList) (u1 ++ (mw ++ (u2 ++ b))) = some (mw ++ (u2 ++ b)) :=
    stripCI_append _ _ _ hci1
  have hm : intoHere w2 (u1 ++ (mw ++ (u2 ++ b))) = true := by
    unfold intoHere afterCI
    rw [hstrip]
    exact hws
  have hrest : u1 ++ (mw ++ (u2 ++ b)) ≠ [] := by
    cases u1 with | nil => exact absurd rfl hu1 | cons => simp
  have := scanBoundary_append (intoHere w2) (u1 ++ (mw ++ (u2 ++ b))) hm hrest a false hend
    (fun _ => rfl)
  simpa [containsIntoPhrase, List.append_assoc] using this

lemma dangerousTest_of_word {w s : Str} (hw : w ∈ dangerousWords)
    (hc : containsWordCI w s = true) : dangerousTest s = true := by
  rcases List.mem_append.mp hw with h12 | hlf
  · rcases List.mem_append.mp h12 with h1 | h2
    · have hany : dangerousGroup1.any (fun w => containsWordCI w s) = true :=
        List.any_eq_true.mpr ⟨w, h1, hc⟩
      unfold dangerousTest
      rw [hany]
      simp
    · have hany : dangerousGroup2.any (fun w => containsWordCI w s) = true :=
        List.any_eq_true.mpr ⟨w, h2, hc⟩
      unfold dangerousTest
      rw [hany]
      simp
  · have hw2 : w = "LOAD_FILE".toList := by simpa using hlf
    subst hw2
    unfold dangerousTest
    rw [hc]
    simp

lemma accepts_false_of_dangerous {s : Str} (h : dangerousTest s = true) :
    accepts s = false := by
  unfold accepts validateSQL
  split_ifs <;> simp_all [isOkE]

lemma accepts_false_of_multi {s : Str} (h : 1 < countStatements s) :
    accepts s = false := by
  unfold accepts validateSQL
  split_ifs <;> simp_all [isOkE]

lemma validateSQL_eq_ok {s : Str} (h : accepts s = true) :
    validateSQL s = Except.ok () := by
  unfold accepts at h
  cases hv : validateSQL s with
  | ok u => cases u; rfl
  | error e => rw [hv] at h; simp [isOkE] at h

lemma ensureSemi_getLast (s : Str) : (ensureSemi s).getLast? = some ';' := by
  unfold ensureSemi
  split_ifs with h
  · exact h
  · simp

lemma cleanSQL_getLast (s : Str) : (cleanSQL s).getLast? = some ';' :=
  ensureSemi_getLast _

lemma jsTrim_ne_nil (l : Str) (c : Char) (hl : l.getLast? = some c)
    (hc : isJsSpace c = false) : jsTrim l ≠ [] := by
  unfold jsTrim dropEndWhile
  have hrev : l.reverse.head? = some c := by rw [List.head?_reverse]; exact hl
  cases hrevl : l.reverse with
  | nil => rw [hrevl] at hrev; simp at hrev
  | cons d ds =>
    rw [hrevl] at hrev
    have hd : d = c := by simpa using hrev
    subst hd
    rw [List.dropWhile_cons_of_neg (by simp [hc])]
    intro hcon
    have hall := List.dropWhile_eq_nil_iff.mp hcon
    have hmem : d ∈ (d :: ds).reverse := by simp
    have := hall d hmem
    rw [hc] at this
    exact Bool.false_ne_true this

/-- Claim C1 (counterexample): the sanitizer performs no
statement-anchor stripping.  On the input `"Sure! SELECT TOP 5 * FROM
Products"`, `cleanSQL` keeps the leading commentary, producing `"Sure!
SELECT TOP 5 * FROM Products;"` rather than the anchor-stripped `"SELECT
TOP 5 * FROM Products;"`, and the validator then rejects the statement
instead of accepting it, refuting the claimed scenario. -/
theorem cleanSQL_keeps_commentary :
    cleanSQL ("Sure! SELECT TOP 5 * FROM Products".toList) =
      "Sure! SELECT TOP 5 * FROM Products;".toList ∧
    accepts (cleanSQL ("Sure! SELECT TOP 5 * FROM Products".toList)) = false := by
  constructor
  · decide
  · decide

/-- Claim C1 (amended): there is no anchor-stripping stage; for every raw
response whose cleaned form does not start (after trimming, case-folded)
with `SELECT` or `WITH` — in particular any response with commentary before
the first keyword — the pipeline rejects it with the leading-keyword error
rather than discarding the prefix and accepting the remainder. -/
theorem cleanSQL_no_anchor_rejected (s : Str)
    (h : startsSelectOrWith (cleanSQL s) = false) :
    validateSQL (cleanSQL s) = Except.error "Only SELECT queries are allowed" := by
  have hne : jsTrim (cleanSQL s) ≠ [] :=
    jsTrim_ne_nil _ ';' (cleanSQL_getLast s) (by decide)
  have h0 : ¬ ((jsTrim (cleanSQL s)).length = 0) := fun hh =>
    hne (List.length_eq_zero.mp hh)
  unfold validateSQL
  rw [if_neg h0, if_pos h]

/-- Witness for `cleanSQL_no_anchor_rejected` at the scenario input of the
claim. -/
theorem cleanSQL_no_anchor_rejected_witness :
    startsSelectOrWith (cleanSQL ("Sure! SELECT TOP 5 * FROM Products".toList)) = false ∧
    validateSQL (cleanSQL ("Sure! SELECT TOP 5 * FROM Products".toList)) =
      Except.error "Only SELECT queries are allowed" :=
  ⟨by decide, cleanSQL_no_anchor_rejected _ (by decide)⟩

/-- Claim C2: every SQL string containing a whole-word case-insensitive
occurrence of one of the blocked keywords (`INSERT`, `UPDATE`, `DELETE`,
`DROP`, `TRUNCATE`, `ALTER`, `CREATE`, `GRANT`, `REVOKE`, `EXEC`,
`EXECUTE`, `EVAL`, `LOAD_FILE`) or of the phrases `INTO OUTFILE` /
`INTO DUMPFILE` is rejected by `validateSQL`: the success branch is
unreachable for such inputs (whichever check fires first, the function
throws). -/
theorem validateSQL_rejects_dangerous (s : Str)
    (h : (∃ w ∈ dangerousWords, HasWordOcc w s) ∨
         HasIntoPhraseOcc ("OUTFILE".toList) s ∨
         HasIntoPhraseOcc ("DUMPFILE".toList) s) :
    accepts s = false := by
  apply accepts_false_of_dangerous
  rcases h with ⟨w, hw, hocc⟩ | hp | hp
  · have hwne : w ≠ [] := by
      have hall : dangerousWords.all (fun w => !w.isEmpty) = true := by decide
      have hthis := List.all_eq_true.mp hall w hw
      intro heq
      rw [heq] at hthis
      simp at hthis
    exact dangerousTest_of_word hw (containsWordCI_of_occ hocc hwne)
  · have hc := containsIntoPhrase_of_occ hp
    unfold dangerousTest
    rw [hc]
    simp
  · have hc := containsIntoPhrase_of_occ hp
    unfold dangerousTest
    rw [hc]
    simp

/-- Witness for `validateSQL_rejects_dangerous`: the statement
`"DROP TABLE Students"` contains the whole word `DROP` and is rejected. -/
theorem validateSQL_rejects_dangerous_witness :
    accepts ("DROP TABLE Students".toList) = false :=
  validateSQL_rejects_dangerous _
    (Or.inl ⟨"DROP".toList, by decide,
      [], "DROP".toList, " TABLE Students".toList, by decide, by decide,
      by decide, by decide⟩)

/-- Claim C5: every SQL string splitting on the terminator into more than
one segment with non-whitespace content is rejected by `validateSQL`; the
validator never accepts a batch. -/
theorem validateSQL_rejects_multi (s : Str) (h : 1 < countStatements s) :
    accepts s = false :=
  accepts_false_of_multi h

/-- Witness for `validateSQL_rejects_multi` at the scenario input of the
claim: `"SELECT * FROM Orders; DROP TABLE Orders;"` splits into two
non-empty statements and is rejected. -/
theorem validateSQL_rejects_multi_witness :
    1 < countStatements ("SELECT * FROM Orders; DROP TABLE Orders;".toList) ∧
    accepts ("SELECT * FROM Orders; DROP TABLE Orders;".toList) = false :=
  ⟨by decide, validateSQL_rejects_multi _ (by decide)⟩

/-- Claim C6 (counterexample): the schema-enumeration defense is narrower
than claimed.  The statement `"SELECT * FROM INFORMATION_SCHEMA.TABLES
UNION ALL SELECT 1 FROM t"` combines the phrase `UNION ALL SELECT` with a
reference to `INFORMATION_SCHEMA` (both occur as substrings), yet
`validateSQL` accepts it: the pattern requires `FROM INFORMATION_SCHEMA`
to the right of `UNION ALL SELECT` on the same line. -/
theorem validateSQL_accepts_union_before_infoschema :
    validateSQL
        ("SELECT * FROM INFORMATION_SCHEMA.TABLES UNION ALL SELECT 1 FROM t".toList) =
      Except.ok () ∧
    ("UNION ALL SELECT".toList <:+:
        "SELECT * FROM INFORMATION_SCHEMA.TABLES UNION ALL SELECT 1 FROM t".toList) ∧
    ("INFORMATION_SCHEMA".toList <:+:
        "SELECT * FROM INFORMATION_SCHEMA.TABLES UNION ALL SELECT 1 FROM t".toList) := by
  refine ⟨rfl, by decide, by decide⟩

/-- Claim C6 (amended): `validateSQL` rejects every statement matching the
source's schema-enumeration pattern: `UNION`, whitespace, `ALL`,
whitespace, `SELECT`, followed — with no line terminator in between — by
`FROM`, whitespace, `INFORMATION_SCHEMA` (all case-insensitive). -/
theorem validateSQL_rejects_union_infoschema (s : Str)
    (h : hasUnionInfoSchema s = true) : accepts s = false := by
  apply accepts_false_of_dangerous
  unfold dangerousTest
  rw [h]
  simp

/-- Witness for `validateSQL_rejects_union_infoschema`. -/
theorem validateSQL_rejects_union_infoschema_witness :
    hasUnionInfoSchema
        ("SELECT 1 UNION ALL SELECT name FROM INFORMATION_SCHEMA.TABLES".toList) = true ∧
    accepts ("SELECT 1 UNION ALL SELECT name FROM INFORMATION_SCHEMA.TABLES".toList) = false :=
  ⟨by decide, validateSQL_rejects_union_infoschema _ (by decide)⟩

lemma natDigitsAux_cons : ∀ (fuel n : Nat), n < fuel →
    ∃ c cs, natDigitsAux fuel n = c :: cs ∧ c.isDigit = true := by
  intro fuel
  induction fuel with
  | zero => intro n h; omega
  | succ f ih =>
    intro n h
    by_cases h10 : n < 10
    · refine ⟨Char.ofNat (48 + n), [], ?_, ?_⟩
      · simp [natDigitsAux, h10]
      · interval_cases n <;> decide
    · have hdiv : n / 10 < f := by
        have h1 : n / 10 < n := Nat.div_lt_self (by omega) (by omega)
        omega
      obtain ⟨c, cs, heq, hdig⟩ := ih (n / 10) hdiv
      refine ⟨c, cs ++ [Char.ofNat (48 + n % 10)], ?_, hdig⟩
      simp [natDigitsAux, h10, heq]

lemma natDigits_cons (n : Nat) : ∃ c cs, natDigits n = c :: cs ∧ c.isDigit = true :=
  natDigitsAux_cons (n + 1) n (by omega)

lemma hasLimitClause_replaceEnd (sql : Str) (n : Nat) :
    hasLimitClause (replaceEndWithLimit sql n) = true := by
  obtain ⟨c, cs, hd, hdig⟩ := natDigits_cons n
  have hshape : " LIMIT ".toList ++ natDigits n ++ ";".toList =
      ' ' :: ("LIMIT".toList ++ (' ' :: (natDigits n ++ [';']))) := by
    rw [hd]
    rfl
  set r2 := (if (dropEndWhile isJsSpace sql).getLast? = some ';' then
      (dropEndWhile isJsSpace sql).dropLast else dropEndWhile isJsSpace sql) with hr2
  have hrepl : replaceEndWithLimit sql n =
      (r2 ++ [' ']) ++ ("LIMIT".toList ++ (' ' :: (natDigits n ++ [';']))) := by
    rw [replaceEndWithLimit, ← hr2, hshape, ← List.append_assoc, List.append_cons r2 ' ']
    simp [List.append_assoc]
  have hm : limitHere ("LIMIT".toList ++ (' ' :: (natDigits n ++ [';']))) = true := by
    unfold limitHere afterCI
    rw [stripCI_append ("LIMIT".toList) ("LIMIT".toList) _ (by decide)]
    rw [hd]
    show wsThen _ (' ' :: (c :: (cs ++ [';']))) = true
    rw [show wsThen (fun r => match r with | c :: _ => c.isDigit | [] => false)
          (' ' :: (c :: (cs ++ [';']))) =
        (isJsSpace ' ' && ((match c :: (cs ++ [';']) with
            | c :: _ => c.isDigit | [] => false) ||
          wsThen (fun r => match r with | c :: _ => c.isDigit | [] => false)
            (c :: (cs ++ [';'])))) from rfl]
    simp [hdig]
    decide
  have hb := scanBoundary_append limitHere
    ("LIMIT".toList ++ (' ' :: (natDigits n ++ [';']))) hm (by simp)
    (r2 ++ [' ']) false (by simp [noWordEnd, List.getLast?_concat]; decide)
    (fun hcon => rfl)
  rw [hasLimitClause, hrepl]
  exact hb

/-- Claim C3: for a valid statement without a `LIMIT` clause, `executeSQL`
injects one: the shaped statement is the original statement with its
trailing whitespace and terminator replaced by a space, the word `LIMIT`,
the configured row maximum in decimal and the terminator; the injected
clause is recognised as a `LIMIT` clause and `limitApplied` is reported
true; when the statement is already trimmed and terminator-free (the
scenario shape), the clause is appended directly.  For a statement with an
existing `LIMIT` clause, the statement is left untouched and `limitApplied`
is reported false. -/
theorem executeSQL_limit_shaping (sql : Str) (n : Nat) (hok : accepts sql = true) :
    (hasLimitClause sql = false →
       (applyLimitSQL sql n).1 = replaceEndWithLimit sql n ∧
       hasLimitClause (applyLimitSQL sql n).1 = true ∧
       (applyLimitSQL sql n).2 = true ∧
       (dropEndWhile isJsSpace sql = sql → sql.getLast? ≠ some ';' →
         (applyLimitSQL sql n).1 = sql ++ (" LIMIT ".toList ++ natDigits n ++ ";".toList))) ∧
    (hasLimitClause sql = true → applyLimitSQL sql n = (sql, false)) := by
  constructor
  · intro hL
    have h1 : (applyLimitSQL sql n).1 = replaceEndWithLimit sql n := by
      simp [applyLimitSQL, hL]
    have h2 : hasLimitClause (applyLimitSQL sql n).1 = true := by
      rw [h1]; exact hasLimitClause_replaceEnd sql n
    have hneq : replaceEndWithLimit sql n ≠ sql := by
      intro he
      rw [← he] at hL
      rw [hasLimitClause_replaceEnd sql n] at hL
      exact Bool.noConfusion hL
    refine ⟨h1, h2, ?_, ?_⟩
    · simp [applyLimitSQL, hL, bne_iff_ne, hneq]
    · intro htrim hsemi
      rw [h1, replaceEndWithLimit, htrim, if_neg hsemi]
  · intro hL
    simp [applyLimitSQL, hL]

/-- Witness for `executeSQL_limit_shaping` at the scenario of the claim:
`maxRows = 1000` turns the `ORDER BY` statement into the same statement
with ` LIMIT 1000;` appended. -/
theorem executeSQL_limit_shaping_witness :
    accepts ("SELECT ProductName FROM Products ORDER BY UnitPrice DESC".toList) = true ∧
    hasLimitClause ("SELECT ProductName FROM Products ORDER BY UnitPrice DESC".toList) = false ∧
    (applyLimitSQL ("SELECT ProductName FROM Products ORDER BY UnitPrice DESC".toList) 1000).1 =
      "SELECT ProductName FROM Products ORDER BY UnitPrice DESC LIMIT 1000;".toList := by
  refine ⟨by decide, by decide, ?_⟩
  have h := (((executeSQL_limit_shaping
      ("SELECT ProductName FROM Products ORDER BY UnitPrice DESC".toList) 1000
      (by decide)).1 (by decide)).2.2.2) (by decide) (by decide)
  rw [h]
  decide

/-- Claim C7: when the database call would outlast the deadline, the race
in `executeWithTimeout` makes `executeSQL` surface the dedicated timeout
failure — whatever the database outcome would have been, syntax error or
rows — so the caller receives the timeout message and no (partial) rows. -/
theorem executeSQL_timeout_distinct {ρ : Type} (db : Str → DbCall ρ) (sql : Str)
    (t n : Nat) (hok : accepts sql = true)
    (hto : t < (db (applyLimitSQL sql n).1).latency) :
    executeSQL db sql t n = Except.error (timeoutMessage t) := by
  have hv := validateSQL_eq_ok hok
  have hw : executeWithTimeout (db (applyLimitSQL sql n).1) t =
      Except.error (timeoutMessage t) := by
    unfold executeWithTimeout
    rw [if_pos hto]
  unfold executeSQL
  rw [hv]
  simp only [hw]

/-- Witness for `executeSQL_timeout_distinct`: a database that would return
three rows after 100 ms loses the race against a 50 ms deadline, and the
caller sees only the timeout failure. -/
theorem executeSQL_timeout_distinct_witness :
    accepts ("SELECT 1".toList) = true ∧
    executeSQL (ρ := Nat) (fun _ => ⟨100, Except.ok [1, 2, 3]⟩) ("SELECT 1".toList) 50 10 =
      Except.error (timeoutMessage 50) :=
  ⟨by decide,
    executeSQL_timeout_distinct (fun _ => ⟨100, Except.ok [1, 2, 3]⟩) ("SELECT 1".toList)
      50 10 (by decide) (by decide)⟩

lemma dropWhile_eq_self_of_head (p : Char → Bool) (l : Str)
    (h : ∀ c, l.head? = some c → p c = false) : l.dropWhile p = l := by
  cases l with
  | nil => rfl
  | cons c cs => rw [List.dropWhile_cons_of_neg (by simp [h c rfl])]

lemma dropEndWhile_eq_self (p : Char → Bool) (l : Str) (c : Char)
    (hl : l.getLast? = some c) (hc : p c = false) : dropEndWhile p l = l := by
  unfold dropEndWhile
  cases hrevl : l.reverse with
  | nil =>
    have hnil : l = [] := by simpa using congrArg List.reverse hrevl
    subst hnil
    simp at hl
  | cons d ds =>
    have hd : d = c := by
      have hh := List.head?_reverse (l := l)
      rw [hrevl, hl] at hh
      simpa using hh
    subst hd
    rw [List.dropWhile_cons_of_neg (by simp [hc])]
    rw [← hrevl, List.reverse_reverse]

lemma stripCI_none_of_head (w : Str) (cw : Char) (hw : w.head? = some cw) (s : Str)
    (h : ∀ c, s.head? = some c → ciEqChar cw c = false) : stripCI w s = none := by
  cases w with
  | nil => simp at hw
  | cons a as =>
    have ha : a = cw := by simpa using hw
    subst ha
    cases s with
    | nil => rfl
    | cons b bs =>
      rw [stripCI, if_neg]
      rw [h b rfl]
      exact Bool.noConfusion

lemma quote_not_ciEq (c : Char) (hq : isQuoteChar c = false) :
    ciEqChar (Char.ofNat 96) c = false := by
  have hA : (Char.ofNat 96 == c) = false := by
    by_contra hA1
    rw [Bool.not_eq_false] at hA1
    have heq : Char.ofNat 96 = c := eq_of_beq hA1
    rw [← heq] at hq
    rw [show isQuoteChar (Char.ofNat 96) = true from by decide] at hq
    exact Bool.noConfusion hq
  have hB : isAsciiUpper (Char.ofNat 96) = false := by decide
  have hC : (isAsciiUpper c && ((Char.ofNat 96).toNat == c.toNat + 32)) = false := by
    by_contra hC1
    rw [Bool.not_eq_false, Bool.and_eq_true] at hC1
    have hCb : (Char.ofNat 96).toNat = c.toNat + 32 := by
      have := hC1.2
      simpa using this
    rw [show (Char.ofNat 96).toNat = 96 from by decide] at hCb
    have hCa := hC1.1
    unfold isAsciiUpper at hCa
    rw [Bool.and_eq_true] at hCa
    have h65 : 65 ≤ c.toNat := of_decide_eq_true hCa.1
    omega
  unfold ciEqChar
  rw [hA, hB, hC]
  simp

lemma headNotQuote_spec {s : Str} (h2 : headNotQuote s = true) :
    ∀ c, s.head? = some c → isQuoteChar c = false := by
  intro c hc
  unfold headNotQuote at h2
  rw [hc] at h2
  simpa using h2

/-- Claim C9: `cleanSQL` is a no-op on every already-clean statement — one
that is trimmed, ends with a terminator, and starts with no quote or fence
character — and is therefore idempotent on such statements. -/
theorem cleanSQL_noop (s : Str) (h1 : jsTrim s = s) (h2 : headNotQuote s = true)
    (h3 : s.getLast? = some ';') :
    cleanSQL s = s ∧ cleanSQL (cleanSQL s) = cleanSQL s := by
  have hq := headNotQuote_spec h2
  have hci : ∀ c, s.head? = some c → ciEqChar (Char.ofNat 96) c = false :=
    fun c hc => quote_not_ciEq c (hq c hc)
  have hB : stripLeadFenceSql s = s := by
    unfold stripLeadFenceSql
    rw [stripCI_none_of_head ("```sql".toList) (Char.ofNat 96) (by decide) s hci]
  have hC : stripLeadFence s = s := by
    unfold stripLeadFence
    rw [stripCI_none_of_head ("```".toList) (Char.ofNat 96) (by decide) s hci]
  have hD : stripTrailFence s = s := by
    have hsuf : ("```".toList).isSuffixOf s = false := by
      by_contra hcon
      rw [Bool.not_eq_false] at hcon
      obtain ⟨tpre, hts⟩ := List.isSuffixOf_iff_suffix.mp hcon
      have hlast : s.getLast? = some (Char.ofNat 96) := by
        rw [← hts]
        rw [List.getLast?_append_of_ne_nil tpre (show ("```".toList : Str) ≠ [] from by decide)]
        decide
      rw [h3] at hlast
      have : (';' : Char) = Char.ofNat 96 := by simpa using hlast
      exact absurd this (by decide)
    unfold stripTrailFence
    rw [if_neg]
    rw [hsuf]
    exact Bool.noConfusion
  have hE : stripQuotes s = s := by
    unfold stripQuotes
    rw [dropWhile_eq_self_of_head isQuoteChar s hq]
    exact dropEndWhile_eq_self isQuoteChar s ';' h3 (by decide)
  have hF : ensureSemi s = s := by
    unfold ensureSemi
    rw [if_pos h3]
  have hclean : cleanSQL s = s := by
    unfold cleanSQL
    rw [h1, hB, hC, hD, hE, hF]
  exact ⟨hclean, by simp [hclean]⟩

/-- Witness for `cleanSQL_noop` on a clean statement. -/
theorem cleanSQL_noop_witness :
    cleanSQL ("SELECT 1;".toList) = "SELECT 1;".toList ∧
    cleanSQL (cleanSQL ("SELECT 1;".toList)) = cleanSQL ("SELECT 1;".toList) :=
  cleanSQL_noop ("SELECT 1;".toList) (by decide) (by decide) (by decide)

/-- Claim C4 (counterexample): a read within the TTL extends the entry's
lifetime, because the cache is configured with `updateAgeOnGet`.  A schema
cached at time 0 and read at 200000 ms is still returned by a read at
400000 ms, although 400000 ms is past the 300000 ms TTL measured from the
`set` — refuting the claim that the entry behaves as absent for every get
after `t` plus the TTL, however often it is read. -/
theorem cacheGet_extends_ttl :
    (cacheGet ((cacheGet (cacheSet (initialSchemaCache Nat) "k" 7 0) "k" 200000).2)
        "k" 400000).1 = some 7 ∧
    (initialSchemaCache Nat).ttl < 400000 - 0 := by
  exact ⟨rfl, by decide⟩

/-- Claim C4 (amended): with the source's `updateAgeOnGet` configuration, a
get within the TTL refreshes the entry's recency and also resets its age,
so expiry is measured from the last read: an entry set at `t` and never
read behaves as absent for a get later than `t` plus the TTL, while an
entry read within the TTL stays present for a further TTL window from the
read. -/
theorem cacheGet_recency_and_ttl {α : Type} (c : LruCache α) (k : String) (v : α)
    (t t1 t2 : Nat) (hup : c.updateAgeOnGet = true) (httl : c.ttl ≠ 0)
    (hmax : 0 < c.maxEntries) :
    (c.ttl < t1 - t → (cacheGet (cacheSet c k v t) k t1).1 = none) ∧
    (t1 - t ≤ c.ttl → t2 - t1 ≤ c.ttl →
      (cacheGet ((cacheGet (cacheSet c k v t) k t1).2) k t2).1 = some v) := by
  obtain ⟨m, hm⟩ : ∃ m, c.maxEntries = m + 1 := ⟨c.maxEntries - 1, by omega⟩
  have hset : (cacheSet c k v t).entries =
      (k, v, t) :: (c.entries.filter (fun e => e.1 != k)).take m := by
    simp [cacheSet, hm]
  have hfind : (cacheSet c k v t).entries.find? (fun e => e.1 == k) = some (k, v, t) := by
    rw [hset]
    exact List.find?_cons_of_pos _ (by simp)
  constructor
  · intro hstale
    unfold cacheGet
    rw [hfind]
    simp only
    rw [if_pos ⟨httl, hstale⟩]
  · intro hfresh1 hfresh2
    have hnotstale1 : ¬ ((cacheSet c k v t).ttl ≠ 0 ∧ (cacheSet c k v t).ttl < t1 - t) := by
      simp only [cacheSet]
      intro hcon
      omega
    have hget1 : cacheGet (cacheSet c k v t) k t1 =
        (some v, { cacheSet c k v t with
          entries := (k, v, t1) ::
            (cacheSet c k v t).entries.filter (fun e => e.1 != k) }) := by
      unfold cacheGet
      rw [hfind]
      simp only
      rw [if_neg (by simpa [cacheSet] using hnotstale1)]
      simp [cacheSet, hup]
    rw [hget1]
    have hfind2 : ((k, v, t1) ::
        (cacheSet c k v t).entries.filter (fun e => e.1 != k)).find?
          (fun e => e.1 == k) = some (k, v, t1) :=
      List.find?_cons_of_pos _ (by simp)
    unfold cacheGet
    simp only at hfind2 ⊢
    rw [hfind2]
    simp only
    rw [if_neg (by simp [cacheSet]; omega)]

/-- Witness for `cacheGet_recency_and_ttl` on the default configuration:
set at 0, read at 250000 (within the 300000 ms TTL), read again at 500000
(past set-time plus TTL but within TTL of the refresh). -/
theorem cacheGet_recency_and_ttl_witness :
    ((initialSchemaCache Nat).ttl < 250000 - 0 →
       (cacheGet (cacheSet (initialSchemaCache Nat) "k" 7 0) "k" 250000).1 = none) ∧
    (250000 - 0 ≤ (initialSchemaCache Nat).ttl →
       500000 - 250000 ≤ (initialSchemaCache Nat).ttl →
       (cacheGet ((cacheGet (cacheSet (initialSchemaCache Nat) "k" 7 0) "k" 250000).2)
         "k" 500000).1 = some 7) :=
  cacheGet_recency_and_ttl (initialSchemaCache Nat) "k" 7 0 250000 500000 rfl
    (by decide) (by decide)

/-- Claim C8 (counterexample): a failing history recorder does change the
result of `queryFromQuestion`.  With the same successful generation and
execution, a succeeding recorder yields the success response, while a
recorder that throws makes the whole call throw the recorder's error. -/
theorem queryFromQuestion_recorder_changes_result :
    queryFromQuestion (γ := Nat) (Except.ok ⟨"SELECT 1;".toList⟩)
        (fun _ => Except.ok [42]) false (fun _ _ => Except.error "no explanation")
        (fun _ => Except.ok ()) =
      Except.ok ⟨"SELECT 1;".toList, [42], 1, none⟩ ∧
    queryFromQuestion (γ := Nat) (Except.ok ⟨"SELECT 1;".toList⟩)
        (fun _ => Except.ok [42]) false (fun _ _ => Except.error "no explanation")
        (fun _ => Except.error "history write failed") =
      Except.error "history write failed" :=
  ⟨rfl, rfl⟩

/-- Claim C8 (amended): `queryFromQuestion` does not shield the caller from
recorder failures.  When generation and execution succeed but the recorder
throws on the success entry, the catch block records a failure entry and
the caller receives an error — the success response is lost; the primary
response is returned unchanged exactly when the success-entry recording
succeeds. -/
theorem queryFromQuestion_recorder_failure {γ : Type} (g : GenOut)
    (execF : Str → Except String (List γ)) (rows : List γ) (explainOpt : Bool)
    (explainF : Str → List γ → Except String String)
    (recorder : HistEntry → Except String Unit) (eh : String)
    (hex : execF g.sql = Except.ok rows)
    (hrec : recorder (histSuccess g) = Except.error eh) :
    isOkE (queryFromQuestion (Except.ok g) execF explainOpt explainF recorder) = false ∧
    queryFromQuestion (Except.ok g) execF false explainF (fun _ => Except.ok ()) =
      Except.ok ⟨g.sql, rows, rows.length, none⟩ := by
  constructor
  · unfold queryFromQuestion
    simp only [hex, hrec]
    cases recorder (histFailure eh) <;> rfl
  · unfold queryFromQuestion
    simp [hex]

/-- Witness for `queryFromQuestion_recorder_failure`. -/
theorem queryFromQuestion_recorder_failure_witness :
    isOkE (queryFromQuestion (γ := Nat) (Except.ok ⟨"SELECT 1;".toList⟩)
        (fun _ => Except.ok [42]) true (fun _ _ => Except.ok "one row")
        (fun _ => Except.error "disk full")) = false ∧
    queryFromQuestion (γ := Nat) (Except.ok ⟨"SELECT 1;".toList⟩)
        (fun _ => Except.ok [42]) false (fun _ _ => Except.ok "one row")
        (fun _ => Except.ok ()) =
      Except.ok ⟨"SELECT 1;".toList, [42], 1, none⟩ :=
  queryFromQuestion_recorder_failure ⟨"SELECT 1;".toList⟩ (fun _ => Except.ok [42])
    [42] true (fun _ _ => Except.ok "one row") (fun _ => Except.error "disk full")
    "disk full" rfl rfl

/-- Claim C10: `addToHistory` gives a new record the id `size before
insertion + 1`; once the store holds its maximum of 1000 records, the size
stays at 1000, every further record gets id 1001, ids stop being unique
(two records with id 1001 coexist after two further inserts), and
`getHistoryById 1001` returns the most recently inserted record with that
id. -/
theorem addToHistory_id_saturation {α : Type} (h : List (HistoryEntry α)) (e1 e2 : α)
    (hfull : h.length = 1000) :
    (∀ (e : α) (l : List (HistoryEntry α)),
        (addToHistory e l).head? = some ⟨l.length + 1, e⟩) ∧
    (addToHistory e1 h).length = 1000 ∧
    (addToHistory e1 h).head? = some ⟨1001, e1⟩ ∧
    (addToHistory e2 (addToHistory e1 h)).head? = some ⟨1001, e2⟩ ∧
    1 < ((addToHistory e2 (addToHistory e1 h)).filter (fun x => x.id == 1001)).length ∧
    getHistoryById 1001 (addToHistory e2 (addToHistory e1 h)) = some ⟨1001, e2⟩ := by
  have hne : h ≠ [] := by
    intro hnil
    rw [hnil] at hfull
    simp at hfull
  have hgen : ∀ (e : α) (l : List (HistoryEntry α)),
      (addToHistory e l).head? = some ⟨l.length + 1, e⟩ := by
    intro e l
    simp only [addToHistory]
    split_ifs with hlen
    · have hlne : l ≠ [] := by
        intro hl
        rw [hl] at hlen
        simp [MAX_HISTORY_SIZE] at hlen
      rw [List.dropLast_cons_of_ne_nil hlne]
      rfl
    · rfl
  have hA : addToHistory e1 h = ⟨1001, e1⟩ :: h.dropLast := by
    simp only [addToHistory]
    rw [if_pos (by simp only [List.length_cons, hfull, MAX_HISTORY_SIZE]; omega)]
    rw [List.dropLast_cons_of_ne_nil hne]
    simp [hfull]
  have hdlen : h.dropLast.length = 999 := by
    rw [List.length_dropLast, hfull]
  have hdne : h.dropLast ≠ [] := by
    intro hnil
    rw [hnil] at hdlen
    simp at hdlen
  have hAlen : (addToHistory e1 h).length = 1000 := by
    rw [hA]
    simp [hdlen]
  have hB : addToHistory e2 (addToHistory e1 h) =
      ⟨1001, e2⟩ :: ⟨1001, e1⟩ :: h.dropLast.dropLast := by
    rw [hA]
    simp only [addToHistory]
    rw [if_pos (by simp only [List.length_cons, hdlen, MAX_HISTORY_SIZE]; omega)]
    rw [List.dropLast_cons_of_ne_nil (by simp [hdne]), List.dropLast_cons_of_ne_nil hdne]
    simp [hdlen]
  refine ⟨hgen, hAlen, ?_, ?_, ?_, ?_⟩
  · rw [hA]; rfl
  · rw [hB]; rfl
  · rw [hB]
    rw [List.filter_cons_of_pos (by simp), List.filter_cons_of_pos (by simp)]
    simp
  · unfold getHistoryById
    rw [hB]
    exact List.find?_cons_of_pos _ (by simp)

/-- Witness for `addToHistory_id_saturation` on a store of 1000 records. -/
theorem addToHistory_id_saturation_witness :
    (List.replicate 1000 (⟨0, 0⟩ : HistoryEntry Nat)).length = 1000 ∧
    getHistoryById 1001
        (addToHistory 2 (addToHistory 1 (List.replicate 1000 (⟨0, 0⟩ : HistoryEntry Nat)))) =
      some ⟨1001, 2⟩ :=
  ⟨by rw [List.length_replicate],
    (addToHistory_id_saturation (List.replicate 1000 (⟨0, 0⟩ : HistoryEntry Nat)) 1 2
      (by rw [List.length_replicate])).2.2.2.2.2⟩

end SqlAi
